import Mathlib

/-!
Verification of the credit-analysis transformation core: canonical mapping
(raw label to canonical account key), deterministic fact coalescing, metric
computation with calculation traces, rating scoring, and the provenance
assembler, together with the frontend rendering of mapped line items.

The backend core is shallowly embedded as pure Lean functions.  Numeric
values are exact rationals; dates and identifiers are strings compared with
the standard lexicographic string order.
-/

namespace CreditCore

/-! ## Basic data model -/

/-- Entity scope of an extracted fact: consolidated group or standalone company. -/
inductive EntityScope where
  | GROUP
  | COMPANY
deriving DecidableEq, Repr

/-- How a raw label was resolved by the mapping engine. -/
inductive MappingMethod where
  | RULE
  | REGEX
  | UNMAPPED
deriving DecidableEq, Repr

/-- One extracted line item handed to the core by the extraction collaborator. -/
structure RawObservation where
  raw_label : String
  value : ℚ
  source_sheet : String
  line_no : Nat
  page : Nat
  entity_scope : EntityScope
  period_end : String
deriving DecidableEq, Repr

/-- Output of the mapping engine for one raw label. -/
structure MappingResult where
  canonical_key : Option String
  mapping_method : MappingMethod
  mapping_confidence : ℚ
deriving DecidableEq, Repr

/-! ## Label normalization

Modelled from the spec: the mapping engine compares labels after
case/whitespace normalization (lower-casing, trimming surrounding
whitespace and collapsing internal whitespace runs to a single space). -/

/-- Is this character a whitespace character for label normalization? -/
def isSpaceChar (c : Char) : Bool :=
  c == ' ' || c == '\t' || c == '\n' || c == '\r'

/-- Collapse whitespace runs to a single space and drop trailing whitespace. -/
def squeeze : List Char → List Char
  | [] => []
  | c :: t =>
    let r := squeeze t
    if isSpaceChar c then
      match r with
      | [] => []
      | d :: _ => if isSpaceChar d then r else ' ' :: r
    else c :: r

/-- Modelled from the spec: case/whitespace normalization of a raw label. -/
def normalize_label (s : String) : String :=
  String.mk ((squeeze (s.data.map Char.toLower)).dropWhile isSpaceChar)

/-! ## Rule table and mapping engine

Modelled from the spec: the repository ships the rule table and
`map_raw_label` in backend code not present here; only the determinism
documentation describes them.  Pass A is an ordered list of exact rules
matched on the normalized label, Pass B an ordered list of pattern rules
(substring predicates on the normalized label); first match wins. -/

/-- An exact-match mapping rule (Pass A). -/
structure ExactRule where
  label : String
  key : String
deriving DecidableEq, Repr

/-- A pattern mapping rule (Pass B): matches when the pattern occurs inside
the normalized label. -/
structure PatternRule where
  pattern : String
  key : String
deriving DecidableEq, Repr

/-- The ordered, static rule table. -/
structure RuleTable where
  exact_rules : List ExactRule
  pattern_rules : List PatternRule
deriving Repr

/-- Does the needle occur at the head of the haystack? -/
def leadMatch : List Char → List Char → Bool
  | [], _ => true
  | _ :: _, [] => false
  | a :: as, b :: bs => a == b && leadMatch as bs

/-- Does the needle occur anywhere inside the haystack? -/
def subMatch (n : List Char) : List Char → Bool
  | [] => n.isEmpty
  | c :: t => leadMatch n (c :: t) || subMatch n t

/-- Mapping confidence of a RULE match.  The fraction 19/20 is the value
0.95 fixed by the provenance documentation, written as an explicit reduced
fraction so that concrete runs evaluate inside proofs. -/
def ruleConfidence : ℚ := ⟨19, 20, by decide, by decide⟩

/-- Mapping confidence of a REGEX match: 17/20 = 0.85. -/
def regexConfidence : ℚ := ⟨17, 20, by decide, by decide⟩

/-- Pass A predicate: case/whitespace-normalized equality with the rule label. -/
def matchesExact (r : ExactRule) (label : String) : Bool :=
  normalize_label r.label == normalize_label label

/-- Pass B predicate: the normalized pattern occurs in the normalized label. -/
def matchesPattern (r : PatternRule) (label : String) : Bool :=
  subMatch (normalize_label r.pattern).data (normalize_label label).data

/-- Modelled from the spec: `mapping_rules.map_raw_label`.  Pass A first
(ordered exact rules, first match wins, RULE at confidence 0.95), then
Pass B (ordered pattern rules, first match wins, REGEX at confidence 0.85),
else UNMAPPED at confidence 0 with no canonical key.  Total: never raises. -/
def map_raw_label (tbl : RuleTable) (label : String) : MappingResult :=
  match tbl.exact_rules.find? (fun r => matchesExact r label) with
  | some r => ⟨some r.key, .RULE, ruleConfidence⟩
  | none =>
    match tbl.pattern_rules.find? (fun r => matchesPattern r label) with
    | some r => ⟨some r.key, .REGEX, regexConfidence⟩
    | none => ⟨none, .UNMAPPED, 0⟩

/-! ## Computable string order

The standard decidability instances for the string order go through byte
iterators that the kernel cannot evaluate, so we replace them with
instances that compare the underlying character lists. -/

instance strLtDecidable (a b : String) : Decidable (a < b) :=
  decidable_of_iff (a.toList < b.toList) String.lt_iff_toList_lt.symm

instance strLeDecidable (a b : String) : Decidable (a ≤ b) :=
  decidable_of_iff (¬ b.toList < a.toList)
    (by rw [← String.lt_iff_toList_lt]; exact not_lt)

/-! ## Three-level lexicographic comparisons

Both the fact-store emission order and the coalescer tie-break are
three-level lexicographic orders; this generic form carries the totality
and transitivity proofs used by the sorting and minimum-selection lemmas. -/

section TriLex

variable {δ : Type} {α β γ : Type} [LinearOrder α] [LinearOrder β] [LinearOrder γ]
variable (f : δ → α) (g : δ → β) (h : δ → γ)

/-- Compare by f, then g, then h (all ascending, last level weak). -/
def triLex (a b : δ) : Prop :=
  f a < f b ∨ (f a = f b ∧ (g a < g b ∨ (g a = g b ∧ h a ≤ h b)))

theorem triLex_refl (a : δ) : triLex f g h a a :=
  Or.inr ⟨rfl, Or.inr ⟨rfl, le_refl _⟩⟩

theorem triLex_total (a b : δ) : triLex f g h a b ∨ triLex f g h b a := by
  rcases lt_trichotomy (f a) (f b) with hf | hf | hf
  · exact Or.inl (Or.inl hf)
  · rcases lt_trichotomy (g a) (g b) with hg | hg | hg
    · exact Or.inl (Or.inr ⟨hf, Or.inl hg⟩)
    · rcases le_total (h a) (h b) with hh | hh
      · exact Or.inl (Or.inr ⟨hf, Or.inr ⟨hg, hh⟩⟩)
      · exact Or.inr (Or.inr ⟨hf.symm, Or.inr ⟨hg.symm, hh⟩⟩)
    · exact Or.inr (Or.inr ⟨hf.symm, Or.inl hg⟩)
  · exact Or.inr (Or.inl hf)

theorem triLex_trans {a b c : δ} (h1 : triLex f g h a b) (h2 : triLex f g h b c) :
    triLex f g h a c := by
  rcases h1 with h1 | ⟨e1, h1⟩
  · rcases h2 with h2 | ⟨e2, h2⟩
    · exact Or.inl (h1.trans h2)
    · exact Or.inl (e2 ▸ h1)
  · rcases h2 with h2 | ⟨e2, h2⟩
    · exact Or.inl (e1 ▸ h2)
    · refine Or.inr ⟨e1.trans e2, ?_⟩
      rcases h1 with h1 | ⟨f1, h1⟩
      · rcases h2 with h2 | ⟨f2, h2⟩
        · exact Or.inl (h1.trans h2)
        · exact Or.inl (f2 ▸ h1)
      · rcases h2 with h2 | ⟨f2, h2⟩
        · exact Or.inl (f1 ▸ h2)
        · exact Or.inr ⟨f1.trans f2, h1.trans h2⟩

end TriLex

/-! ## Fact coalescer and normalized fact store -/

/-- One observation after the mapping engine resolved it to a canonical key. -/
structure MappedObs where
  canonical_key : String
  period_end : String
  entity_scope : EntityScope
  value : ℚ
  raw_label : String
  source_sheet : String
  line_no : Nat
  page : Nat
  mapping_method : MappingMethod
  mapping_confidence : ℚ
deriving DecidableEq, Repr

/-- One provenance entry of a NormalizedFact, as listed in source_refs_json. -/
structure SourceRef where
  page : Nat
  line_no : Nat
  raw_label : String
  source_sheet : String
  mapping_method : MappingMethod
  mapping_confidence : ℚ
  extraction_cell_ref : String
  entity_scope : EntityScope
deriving DecidableEq, Repr

/-- The synthetic cell reference, for example SFP_GROUP!row_12. -/
def cellRef (o : MappedObs) : String :=
  o.source_sheet ++ "!row_" ++ toString o.line_no

/-- Provenance entry contributed by one mapped observation. -/
def mkSourceRef (o : MappedObs) : SourceRef :=
  ⟨o.page, o.line_no, o.raw_label, o.source_sheet, o.mapping_method,
    o.mapping_confidence, cellRef o, o.entity_scope⟩

/-- The canonical unit of truth produced by the coalescer. -/
structure NormalizedFact where
  canonical_key : String
  period_end : String
  entity_scope : EntityScope
  value_base : ℚ
  source_refs : List SourceRef
deriving DecidableEq, Repr

/-- The key under which facts are unique. -/
structure FactKey where
  canonical_key : String
  period_end : String
  entity_scope : EntityScope
deriving DecidableEq, Repr

/-- Key of a mapped observation. -/
def obsKey (o : MappedObs) : FactKey :=
  ⟨o.canonical_key, o.period_end, o.entity_scope⟩

/-- Key of a normalized fact. -/
def factKey (f : NormalizedFact) : FactKey :=
  ⟨f.canonical_key, f.period_end, f.entity_scope⟩

/-- Numeric rank of an entity scope, used only to fix an emission order. -/
def scopeRank : EntityScope → Nat
  | .GROUP => 0
  | .COMPANY => 1

/-- Emission order of fact keys: canonical_key, then period_end, then scope. -/
def keyLE : FactKey → FactKey → Prop :=
  triLex FactKey.canonical_key FactKey.period_end (fun k => scopeRank k.entity_scope)

instance : DecidableRel keyLE := fun a b =>
  @instDecidableOr _ _ (strLtDecidable _ _) <|
    @instDecidableAnd _ _ (String.decEq _ _) <|
      @instDecidableOr _ _ (strLtDecidable _ _) <|
        @instDecidableAnd _ _ (String.decEq _ _) (Nat.decLe _ _)

instance : IsTotal FactKey keyLE := ⟨triLex_total _ _ _⟩

instance : IsTrans FactKey keyLE := ⟨fun _ _ _ => triLex_trans _ _ _⟩

/-- Modelled from the spec: the coalescer tie-break order.  An observation
precedes another when its mapping_confidence is higher; ties prefer the
lexicographically smaller source_sheet, then the smaller line_no. -/
def obsLE : MappedObs → MappedObs → Prop :=
  triLex (fun o => -o.mapping_confidence) MappedObs.source_sheet MappedObs.line_no

instance : DecidableRel obsLE := fun a b =>
  @instDecidableOr _ _
    (inferInstanceAs (Decidable (-a.mapping_confidence < -b.mapping_confidence))) <|
    @instDecidableAnd _ _
      (inferInstanceAs (Decidable (-a.mapping_confidence = -b.mapping_confidence))) <|
      @instDecidableOr _ _ (strLtDecidable _ _) <|
        @instDecidableAnd _ _ (String.decEq _ _) (Nat.decLe _ _)

/-- Keep the preferred of two observations; on a tie keep the first. -/
def pickBetter (a b : MappedObs) : MappedObs :=
  if obsLE a b then a else b

/-- Modelled from the spec: coalesce all mapped observations sharing one
(canonical_key, period_end, entity_scope) into one NormalizedFact.  The
winner under the tie-break order provides value_base; every contributing
observation is retained in source_refs; zero observations produce no fact. -/
def coalesce (obs : List MappedObs) : Option NormalizedFact :=
  match obs with
  | [] => none
  | o :: rest =>
    let w := rest.foldl pickBetter o
    some ⟨w.canonical_key, w.period_end, w.entity_scope, w.value,
      (o :: rest).map mkSourceRef⟩

/-- The observations of one key group, in input order. -/
def keyGroup (obs : List MappedObs) (k : FactKey) : List MappedObs :=
  obs.filter (fun o => decide (obsKey o = k))

/-- Modelled from the spec: build the normalized fact store from all mapped
observations.  Keys are deduplicated, sorted into the canonical
(canonical_key, period_end) emission order, and each key group is
coalesced into one fact. -/
def buildFactStore (obs : List MappedObs) : List NormalizedFact :=
  (((obs.map obsKey).dedup).insertionSort keyLE).filterMap
    (fun k => coalesce (keyGroup obs k))

/-! ## Formula library and metric engine -/

/-- One resolved input recorded in a calculation trace. -/
structure TraceInput where
  canonical_key : String
  period_end : String
  value : ℚ
deriving DecidableEq, Repr

/-- The calc_trace_json of a MetricFact. -/
structure CalcTrace where
  formula_id : String
  inputs : List TraceInput
  output : ℚ
deriving DecidableEq, Repr

/-- A metric fact, keyed by (metric_key, period_end). -/
structure MetricFact where
  metric_key : String
  period_end : String
  value : ℚ
  calc_trace : CalcTrace
deriving DecidableEq, Repr

/-- Modelled from the spec: a versioned metric formula declaring its required
canonical inputs.  compute returns none when the arithmetic is undefined
(for example a zero denominator), so no Infinity/NaN value can ever be
stored: metric values live in ℚ. -/
structure FormulaSpec where
  formula_id : String
  inputs : List String
  compute : List ℚ → Option ℚ

/-- Look up the unique fact for a full key in the store. -/
def lookupFact (store : List NormalizedFact) (k : String) (p : String)
    (sc : EntityScope) : Option NormalizedFact :=
  store.find? (fun f => decide (f.canonical_key = k ∧ f.period_end = p ∧ f.entity_scope = sc))

/-- Resolve the declared inputs of a formula against the store for one
period and scope; none as soon as any required input is absent. -/
def resolveInputs (store : List NormalizedFact) (p : String) (sc : EntityScope) :
    List String → Option (List TraceInput)
  | [] => some []
  | k :: ks =>
    match lookupFact store k p sc with
    | none => none
    | some f =>
      match resolveInputs store p sc ks with
      | none => none
      | some rest => some (⟨k, p, f.value_base⟩ :: rest)

/-- Modelled from the spec: evaluate one formula for one period.  Absent
inputs or undefined arithmetic yield none (the metric is Skipped); a
successful evaluation carries the mandatory calc_trace listing every input
actually consumed with its resolved value. -/
def evaluate (fs : FormulaSpec) (store : List NormalizedFact) (p : String)
    (sc : EntityScope) : Option MetricFact :=
  match resolveInputs store p sc fs.inputs with
  | none => none
  | some ins =>
    match fs.compute (ins.map TraceInput.value) with
    | none => none
    | some v => some ⟨fs.formula_id, p, v, ⟨fs.formula_id, ins, v⟩⟩

/-- Evaluate the formula library in formula order for one period, omitting
Skipped metrics from the output. -/
def evalFormulas (formulas : List FormulaSpec) (store : List NormalizedFact)
    (p : String) (sc : EntityScope) : List MetricFact :=
  formulas.filterMap (fun fs => evaluate fs store p sc)

/-- The sorted list of distinct period_end values present in the store. -/
def storePeriods (store : List NormalizedFact) : List String :=
  ((store.map NormalizedFact.period_end).dedup).insertionSort (fun a b => a ≤ b)

/-! ## Rating engine

Modelled from the spec: single-pass scoring.  Each driver maps through a
fixed ordered scoring table to a raw score (with a documented default when
the driver value is missing), raw scores are combined by fixed weights,
and the composite maps through a fixed ordered threshold table to a grade
and PD band. -/

/-- One row of a driver scoring table: values at or above the threshold
receive the score. -/
structure ScoreBand where
  threshold : ℚ
  score : ℚ
deriving DecidableEq, Repr

/-- One scored driver of the rating scheme. -/
structure Driver where
  key : String
  weight : ℚ
  bands : List ScoreBand
  defaultScore : ℚ
deriving Repr

/-- One row of the grade threshold table. -/
structure GradeBand where
  threshold : ℚ
  grade : String
  pd_band : ℚ
deriving DecidableEq, Repr

/-- The fixed, versioned rating configuration. -/
structure RatingConfig where
  drivers : List Driver
  gradeBands : List GradeBand
  fallbackGrade : String
  fallbackPd : ℚ
deriving Repr

/-- One line of the score breakdown. -/
structure BreakdownEntry where
  driver : String
  weight : ℚ
  raw_score : ℚ
  weighted_score : ℚ
  defaulted : Bool
deriving DecidableEq, Repr

/-- The rating output. -/
structure RatingResult where
  grade : String
  pd_band : ℚ
  score_breakdown : List BreakdownEntry
deriving DecidableEq, Repr

/-- First band whose threshold the value reaches, else the default score. -/
def scoreIn (bands : List ScoreBand) (v : ℚ) (dflt : ℚ) : ℚ :=
  match bands.find? (fun b => decide (b.threshold ≤ v)) with
  | some b => b.score
  | none => dflt

/-- Score one driver against the metric snapshot and qualitative inputs. -/
def scoreDriver (metrics : List MetricFact) (qual : List (String × ℚ))
    (d : Driver) : BreakdownEntry :=
  match metrics.find? (fun m => m.metric_key == d.key) with
  | some m => ⟨d.key, d.weight, scoreIn d.bands m.value d.defaultScore,
      d.weight * scoreIn d.bands m.value d.defaultScore, false⟩
  | none =>
    match qual.find? (fun q => q.1 == d.key) with
    | some q => ⟨d.key, d.weight, scoreIn d.bands q.2 d.defaultScore,
        d.weight * scoreIn d.bands q.2 d.defaultScore, false⟩
    | none => ⟨d.key, d.weight, d.defaultScore, d.weight * d.defaultScore, true⟩

/-- Modelled from the spec: the rating engine.  Deterministic single pass
over the ordered driver list, composite by fixed weights, grade and PD band
by the first matching threshold row. -/
def rate (cfg : RatingConfig) (metrics : List MetricFact)
    (qual : List (String × ℚ)) : RatingResult :=
  let breakdown := cfg.drivers.map (scoreDriver metrics qual)
  let composite := (breakdown.map BreakdownEntry.weighted_score).sum
  match cfg.gradeBands.find? (fun b => decide (b.threshold ≤ composite)) with
  | some b => ⟨b.grade, b.pd_band, breakdown⟩
  | none => ⟨cfg.fallbackGrade, cfg.fallbackPd, breakdown⟩

/-! ## Full pipeline -/

/-- A raw observation paired with its mapping result, when Pass A or B
resolved a canonical key. -/
def mapObservation (tbl : RuleTable) (o : RawObservation) : Option MappedObs :=
  match map_raw_label tbl o.raw_label with
  | ⟨some k, m, c⟩ =>
    some ⟨k, o.period_end, o.entity_scope, o.value, o.raw_label,
      o.source_sheet, o.line_no, o.page, m, c⟩
  | ⟨none, _, _⟩ => none

/-- The three persisted output sets of one evaluation run. -/
structure PipelineOutput where
  facts : List NormalizedFact
  metrics : List MetricFact
  rating : RatingResult
deriving Repr

/-- Modelled from the spec: the full evaluation pipeline.  Mapping, then
coalescing into the sorted fact store, then metric evaluation per sorted
period in formula order over the group scope, then rating.  A pure
function of its inputs: no step consults time, randomness, or unordered
iteration. -/
def runPipeline (tbl : RuleTable) (formulas : List FormulaSpec)
    (cfg : RatingConfig) (qual : List (String × ℚ))
    (obs : List RawObservation) : PipelineOutput :=
  let mapped := obs.filterMap (mapObservation tbl)
  let store := buildFactStore mapped
  let metrics := (storePeriods store).flatMap
    (fun p => evalFormulas formulas store p .GROUP)
  ⟨store, metrics, rate cfg metrics qual⟩

/-! ## Provenance assembler -/

/-- A memo-section citation of one metric. -/
structure Citation where
  section_key : String
  metric_key : String
  period_end : String
deriving DecidableEq, Repr

/-- A missing link in the citation, trace, source chain. -/
inductive AssembleError where
  | missingMetric (metric_key : String) (period_end : String)
  | missingFact (canonical_key : String) (period_end : String)
deriving DecidableEq, Repr

/-- One assembled bundle entry: the citation, its metric fact, and every
trace input resolved to its normalized fact. -/
structure BundleEntry where
  citation : Citation
  metric : MetricFact
  resolved : List (TraceInput × NormalizedFact)
deriving DecidableEq, Repr

/-- Resolve every trace input to its normalized fact, failing loudly on the
first input with no corresponding fact. -/
def resolveTrace (facts : List NormalizedFact) :
    List TraceInput → Except AssembleError (List (TraceInput × NormalizedFact))
  | [] => .ok []
  | i :: rest =>
    match facts.find? (fun f => decide (f.canonical_key = i.canonical_key ∧ f.period_end = i.period_end)) with
    | none => .error (.missingFact i.canonical_key i.period_end)
    | some f =>
      match resolveTrace facts rest with
      | .error e => .error e
      | .ok t => .ok ((i, f) :: t)

/-- Resolve one citation to its metric fact and resolved trace. -/
def resolveCitation (metrics : List MetricFact) (facts : List NormalizedFact)
    (c : Citation) : Except AssembleError BundleEntry :=
  match metrics.find? (fun m => decide (m.metric_key = c.metric_key ∧ m.period_end = c.period_end)) with
  | none => .error (.missingMetric c.metric_key c.period_end)
  | some m =>
    match resolveTrace facts m.calc_trace.inputs with
    | .error e => .error e
    | .ok t => .ok ⟨c, m, t⟩

/-- Modelled from the spec: the provenance assembler.  A pure read-only
assembly over the already-computed metric facts and normalized facts; any
broken citation, trace, source link is a reported error for the whole
bundle, never a silently empty result. -/
def assemble (citations : List Citation) (metrics : List MetricFact)
    (facts : List NormalizedFact) : Except AssembleError (List BundleEntry) :=
  match citations with
  | [] => .ok []
  | c :: rest =>
    match resolveCitation metrics facts c with
    | .error e => .error e
    | .ok entry =>
      match assemble rest metrics facts with
      | .error e => .error e
      | .ok es => .ok (entry :: es)

/-! ## Frontend: mapped-line-items table rendering

Embedded from src/frontend/app/login/page.tsx (DocumentVersionDetailPage):
the canonical-key cell renders m.canonical_key or the literal UNMAPPED when
missing or empty, the confidence cell renders (m.confidence * 100).toFixed(0)
with a percent sign when confidence is a number and a dash otherwise. -/

/-- One row of the mapped-line-items table as delivered by the API; a
non-numeric or absent confidence is none, an absent canonical_key is none. -/
structure MappingRow where
  raw_label : Option String
  canonical_key : Option String
  confidence : Option ℚ
deriving Repr

/-- JavaScript toFixed(0): the nearest integer, ties toward the larger
integer, that is the floor of q + 1/2. -/
def jsToFixed0 (q : ℚ) : ℤ :=
  ⌊q + 1 / 2⌋

/-- The canonical-key cell: m.canonical_key or UNMAPPED, where the
JavaScript or-else treats an absent and an empty key alike as falsy. -/
def renderCanonicalKey (m : MappingRow) : String :=
  match m.canonical_key with
  | none => "UNMAPPED"
  | some s => if s = "" then "UNMAPPED" else s

/-- The confidence cell: the confidence as a whole percentage when it is a
number, a dash otherwise. -/
def renderConfidence (m : MappingRow) : String :=
  match m.confidence with
  | none => "-"
  | some q => toString (jsToFixed0 (q * 100)) ++ "%"

/-! ## Spec-side formulations and concrete inputs -/

/-- The coalescer tie-break preference exactly as the spec words it: highest
mapping_confidence wins, ties prefer the lexicographically smallest
source_sheet, then the smallest line_no. -/
def specPrefers (a b : MappedObs) : Prop :=
  b.mapping_confidence < a.mapping_confidence ∨
    (a.mapping_confidence = b.mapping_confidence ∧
      (a.source_sheet < b.source_sheet ∨
        (a.source_sheet = b.source_sheet ∧ a.line_no ≤ b.line_no)))

/-- An integer as a rational in reduced form, so that concrete runs
evaluate inside proofs. -/
def qint (n : ℤ) : ℚ := ⟨n, 1, Nat.one_ne_zero, Nat.coprime_one_right _⟩

/-- A small concrete rule table used to exercise the theorems. -/
def demoTable : RuleTable :=
  ⟨[⟨"Trade receivables", "trade_receivables"⟩, ⟨"Inventories", "inventory"⟩],
    [⟨"lease liabilit", "lease_liabilities"⟩]⟩

/-- Concrete mapped observation: inventory from the group SFP, row 10. -/
def obsInvA : MappedObs :=
  ⟨"inventory", "2025-06-30", .GROUP, qint 120, "Inventories", "SFP_GROUP", 10, 3,
    .RULE, ruleConfidence⟩

/-- Concrete mapped observation: the same inventory key from the notes. -/
def obsInvB : MappedObs :=
  ⟨"inventory", "2025-06-30", .GROUP, qint 118, "Inventory balance", "NOTES", 44, 9,
    .REGEX, regexConfidence⟩

/-- Concrete mapped observation: cash from the group SFP, row 12. -/
def obsCash : MappedObs :=
  ⟨"cash", "2025-06-30", .GROUP, qint 50, "Cash", "SFP_GROUP", 12, 3,
    .RULE, ruleConfidence⟩

/-- Concrete observation list, deliberately out of key order. -/
def demoMapped : List MappedObs := [obsInvB, obsCash, obsInvA]

/-- The store built from the concrete observations. -/
def demoStore : List NormalizedFact := buildFactStore demoMapped

/-- The cash fact as it appears in the concrete store. -/
def demoCashFact : NormalizedFact :=
  ⟨"cash", "2025-06-30", .GROUP, qint 50,
    [⟨3, 12, "Cash", "SFP_GROUP", .RULE, ruleConfidence, "SFP_GROUP!row_12", .GROUP⟩]⟩

/-- Scenario 4 formula: net debt to EBITDA, requiring total_debt, cash and
ebitda, with a division guarded against a zero denominator. -/
def demoNetDebt : FormulaSpec :=
  ⟨"v1_net_debt_to_ebitda", ["total_debt", "cash", "ebitda"],
    fun vs =>
      match vs with
      | [d, c, e] => if e = 0 then none else some ((d - c) / e)
      | _ => none⟩

/-- A formula over the inventory key with a constant compute, used to
exercise the calc-trace round trip on the concrete store. -/
def demoInvFormula : FormulaSpec :=
  ⟨"v1_inventory_level", ["inventory"], fun _ => some (qint 7)⟩

/-- The metric fact demoInvFormula produces on the concrete store. -/
def demoInvMetric : MetricFact :=
  ⟨"v1_inventory_level", "2025-06-30", qint 7,
    ⟨"v1_inventory_level", [⟨"inventory", "2025-06-30", qint 120⟩], qint 7⟩⟩

/-- A minimal rating configuration. -/
def demoRating : RatingConfig :=
  ⟨[⟨"v1_inventory_level", qint 1, [⟨qint 0, qint 2⟩], qint 1⟩],
    [⟨qint 0, "BB", qint 2⟩], "NR", qint 0⟩

/-- Concrete raw observations handed to the full pipeline. -/
def demoRaw : List RawObservation :=
  [⟨"Trade receivables", qint 200, "SFP_GROUP", 8, 3, .GROUP, "2025-06-30"⟩,
   ⟨"Inventories", qint 120, "SFP_GROUP", 10, 3, .GROUP, "2025-06-30"⟩,
   ⟨"Unlabelled subtotal", qint 999, "SFP_GROUP", 11, 3, .GROUP, "2025-06-30"⟩]

/-- A citation that no metric fact satisfies. -/
def demoBrokenCitation : Citation := ⟨"liquidity", "v1_current", "2025-06-30"⟩

/-- A rendered row whose canonical key is empty. -/
def demoRowEmpty : MappingRow := ⟨some "Sundry items", some "", some regexConfidence⟩

/-! ## Helper lemmas -/

/-- find? only depends on the predicate pointwise. -/
theorem find?_congr {α : Type} (p q : α → Bool) (l : List α)
    (h : ∀ a, p a = q a) : l.find? p = l.find? q := by
  induction l with
  | nil => rfl
  | cons x t ih => simp only [List.find?_cons, h x]; split <;> simp [ih]

/-- The RULE confidence is exactly 0.95. -/
theorem ruleConfidence_eq : ruleConfidence = 0.95 := by
  rw [ruleConfidence, Rat.mk'_eq_divInt, Rat.divInt_eq_div]
  norm_num

/-- The REGEX confidence is exactly 0.85. -/
theorem regexConfidence_eq : regexConfidence = 0.85 := by
  rw [regexConfidence, Rat.mk'_eq_divInt, Rat.divInt_eq_div]
  norm_num

/-- The three possible outcomes of the mapping engine, with the rule that
produced each. -/
theorem map_raw_label_cases (tbl : RuleTable) (label : String) :
    (∃ r, tbl.exact_rules.find? (fun r => matchesExact r label) = some r ∧
      map_raw_label tbl label = ⟨some r.key, .RULE, ruleConfidence⟩) ∨
    (∃ r, tbl.exact_rules.find? (fun r => matchesExact r label) = none ∧
      tbl.pattern_rules.find? (fun r => matchesPattern r label) = some r ∧
      map_raw_label tbl label = ⟨some r.key, .REGEX, regexConfidence⟩) ∨
    (tbl.exact_rules.find? (fun r => matchesExact r label) = none ∧
      tbl.pattern_rules.find? (fun r => matchesPattern r label) = none ∧
      map_raw_label tbl label = ⟨none, .UNMAPPED, 0⟩) := by
  unfold map_raw_label
  cases hA : tbl.exact_rules.find? (fun r => matchesExact r label) with
  | some r => exact Or.inl ⟨r, rfl, rfl⟩
  | none =>
    cases hB : tbl.pattern_rules.find? (fun r => matchesPattern r label) with
    | some r => exact Or.inr (Or.inl ⟨r, rfl, rfl, rfl⟩)
    | none => exact Or.inr (Or.inr ⟨rfl, rfl, rfl⟩)

/-- Exact matching only sees the normalized label. -/
theorem matchesExact_congr {l1 l2 : String} (r : ExactRule)
    (h : normalize_label l1 = normalize_label l2) :
    matchesExact r l1 = matchesExact r l2 := by
  unfold matchesExact
  rw [h]

/-- Pattern matching only sees the normalized label. -/
theorem matchesPattern_congr {l1 l2 : String} (r : PatternRule)
    (h : normalize_label l1 = normalize_label l2) :
    matchesPattern r l1 = matchesPattern r l2 := by
  unfold matchesPattern
  rw [h]

/-- The tie-break order coincides with its spec-side wording. -/
theorem obsLE_iff_specPrefers {a b : MappedObs} : obsLE a b ↔ specPrefers a b := by
  unfold obsLE triLex specPrefers
  rw [neg_lt_neg_iff, neg_inj]

/-- find? returns the first element satisfying the predicate. -/
theorem find?_first {α : Type} (p : α → Bool) :
    ∀ (pre : List α) (r : α) (post : List α),
      (∀ x ∈ pre, p x = false) → p r = true →
      (pre ++ r :: post).find? p = some r := by
  intro pre
  induction pre with
  | nil =>
    intro r post _ hr
    simp [List.find?_cons, hr]
  | cons x xs ih =>
    intro r post hpre hr
    have hx : p x = false := hpre x (List.mem_cons_self x xs)
    simp only [List.cons_append, List.find?_cons, hx]
    exact ih r post (fun y hy => hpre y (List.mem_cons_of_mem x hy)) hr

/-- If every element fails the predicate, find? returns none. -/
theorem find?_none {α : Type} (p : α → Bool) :
    ∀ (l : List α), (∀ x ∈ l, p x = false) → l.find? p = none := by
  intro l
  induction l with
  | nil => intro _; rfl
  | cons x xs ih =>
    intro h
    have hx : p x = false := h x (List.mem_cons_self x xs)
    simp only [List.find?_cons, hx]
    exact ih (fun y hy => h y (List.mem_cons_of_mem x hy))

theorem obsLE_refl (a : MappedObs) : obsLE a a := triLex_refl _ _ _ a

theorem obsLE_total (a b : MappedObs) : obsLE a b ∨ obsLE b a := triLex_total _ _ _ a b

theorem obsLE_trans {a b c : MappedObs} (h1 : obsLE a b) (h2 : obsLE b c) : obsLE a c :=
  triLex_trans _ _ _ h1 h2

/-- The picked observation is one of the two candidates. -/
theorem pickBetter_eq_or (a b : MappedObs) : pickBetter a b = a ∨ pickBetter a b = b := by
  unfold pickBetter
  split <;> simp

/-- The picked observation precedes both candidates. -/
theorem pickBetter_le (a b : MappedObs) :
    obsLE (pickBetter a b) a ∧ obsLE (pickBetter a b) b := by
  unfold pickBetter
  split
  · exact ⟨obsLE_refl a, by assumption⟩
  · rename_i hn
    rcases obsLE_total a b with h | h
    · exact absurd h hn
    · exact ⟨h, obsLE_refl b⟩

/-- The fold of pickBetter stays inside the candidate list. -/
theorem foldl_pick_mem : ∀ (l : List MappedObs) (a : MappedObs),
    l.foldl pickBetter a ∈ a :: l := by
  intro l
  induction l with
  | nil => intro a; simp
  | cons b t ih =>
    intro a
    rw [List.foldl_cons]
    have h := ih (pickBetter a b)
    rcases List.mem_cons.mp h with h1 | h1
    · rw [h1]
      rcases pickBetter_eq_or a b with he | he <;> rw [he] <;> simp
    · simp [h1]

/-- The fold of pickBetter precedes every candidate. -/
theorem foldl_pick_min : ∀ (l : List MappedObs) (a : MappedObs) (x : MappedObs),
    x ∈ a :: l → obsLE (l.foldl pickBetter a) x := by
  intro l
  induction l with
  | nil =>
    intro a x hx
    rcases List.mem_cons.mp hx with h | h
    · subst h; exact obsLE_refl x
    · cases h
  | cons b t ih =>
    intro a x hx
    rw [List.foldl_cons]
    have hpick := pickBetter_le a b
    have hmin : obsLE (t.foldl pickBetter (pickBetter a b)) (pickBetter a b) :=
      ih (pickBetter a b) (pickBetter a b) (List.mem_cons_self _ _)
    rcases List.mem_cons.mp hx with h1 | h1
    · subst h1
      exact obsLE_trans hmin hpick.1
    · rcases List.mem_cons.mp h1 with h2 | h2
      · subst h2
        exact obsLE_trans hmin hpick.2
      · exact ih (pickBetter a b) x (List.mem_cons_of_mem _ h2)

/-- Shape of a successful coalesce: some winner provides the value, every
observation is retained in source_refs. -/
theorem coalesce_spec (obs : List MappedObs) (hne : obs ≠ []) :
    ∃ f w, coalesce obs = some f ∧ w ∈ obs ∧
      f.canonical_key = w.canonical_key ∧ f.period_end = w.period_end ∧
      f.entity_scope = w.entity_scope ∧ f.value_base = w.value ∧
      (∀ o ∈ obs, obsLE w o) ∧ f.source_refs = obs.map mkSourceRef := by
  cases obs with
  | nil => exact absurd rfl hne
  | cons o rest =>
    exact ⟨_, rest.foldl pickBetter o, rfl, foldl_pick_mem rest o, rfl, rfl, rfl, rfl,
      fun x hx => foldl_pick_min rest o x hx, rfl⟩

/-- Membership in a key group. -/
theorem mem_keyGroup {obs : List MappedObs} {k : FactKey} {o : MappedObs} :
    o ∈ keyGroup obs k ↔ o ∈ obs ∧ obsKey o = k := by
  simp [keyGroup, List.mem_filter]

theorem keyGroup_key {obs : List MappedObs} {k : FactKey} {o : MappedObs}
    (h : o ∈ keyGroup obs k) : obsKey o = k :=
  (mem_keyGroup.mp h).2

theorem keyGroup_ne_nil {obs : List MappedObs} {k : FactKey}
    (h : ∃ o ∈ obs, obsKey o = k) : keyGroup obs k ≠ [] := by
  obtain ⟨o, ho, hk⟩ := h
  exact List.ne_nil_of_mem (mem_keyGroup.mpr ⟨ho, hk⟩)

/-- A successful coalesce of a key group determines the fact completely. -/
theorem coalesce_some_key {g : List MappedObs} {k : FactKey} {f : NormalizedFact}
    (hg : ∀ o ∈ g, obsKey o = k) (h : coalesce g = some f) :
    factKey f = k ∧ f.source_refs = g.map mkSourceRef ∧
      ∃ w ∈ g, f.value_base = w.value ∧ ∀ o ∈ g, obsLE w o := by
  have hne : g ≠ [] := by
    intro he
    rw [he] at h
    simp [coalesce] at h
  obtain ⟨f2, w, hc, hw, h1, h2, h3, h4, h5, h6⟩ := coalesce_spec g hne
  rw [hc] at h
  injection h with hf
  subst hf
  refine ⟨?_, h6, w, hw, h4, h5⟩
  have hk : obsKey w = k := hg w hw
  rw [factKey]
  rw [h1, h2, h3]
  exact hk

/-- Applying coalesce along a key list whose groups are all inhabited
reproduces exactly that key list. -/
theorem filterMap_coalesce_keys (obs : List MappedObs) :
    ∀ ks : List FactKey, (∀ k ∈ ks, keyGroup obs k ≠ []) →
      (ks.filterMap (fun k => coalesce (keyGroup obs k))).map factKey = ks := by
  intro ks
  induction ks with
  | nil => intro _; rfl
  | cons k t ih =>
    intro h
    have hne := h k (List.mem_cons_self _ _)
    obtain ⟨f, w, hc, hw, _, _, _, _, _, _⟩ := coalesce_spec (keyGroup obs k) hne
    have hfk : factKey f = k :=
      (coalesce_some_key (fun o ho => keyGroup_key ho) hc).1
    rw [List.filterMap_cons, hc, List.map_cons, hfk,
      ih (fun x hx => h x (List.mem_cons_of_mem _ hx))]

/-- The keys of the fact store are exactly the sorted deduplicated keys of
the observations. -/
theorem buildFactStore_keys (obs : List MappedObs) :
    (buildFactStore obs).map factKey =
      ((obs.map obsKey).dedup).insertionSort keyLE := by
  apply filterMap_coalesce_keys
  intro k hk
  apply keyGroup_ne_nil
  have h1 : k ∈ (obs.map obsKey).dedup := (List.mem_insertionSort keyLE).mp hk
  have h2 : k ∈ obs.map obsKey := List.mem_dedup.mp h1
  obtain ⟨o, ho, he⟩ := List.mem_map.mp h2
  exact ⟨o, ho, he⟩

/-- At most one fact per key in the store. -/
theorem store_keys_nodup (obs : List MappedObs) :
    ((buildFactStore obs).map factKey).Nodup := by
  rw [buildFactStore_keys]
  exact ((List.perm_insertionSort keyLE _).nodup_iff).mpr (List.nodup_dedup _)

/-- The store is sorted in the canonical key emission order. -/
theorem store_keys_sorted (obs : List MappedObs) :
    List.Sorted keyLE ((buildFactStore obs).map factKey) := by
  rw [buildFactStore_keys]
  exact List.sorted_insertionSort keyLE _

/-- Every store entry coalesces its own key group: full provenance, winner
value, winner minimal in the tie-break order. -/
theorem store_entry {obs : List MappedObs} {f : NormalizedFact}
    (h : f ∈ buildFactStore obs) :
    f.source_refs = (keyGroup obs (factKey f)).map mkSourceRef ∧
      ∃ w ∈ keyGroup obs (factKey f), f.value_base = w.value ∧
        ∀ o ∈ keyGroup obs (factKey f), obsLE w o := by
  unfold buildFactStore at h
  obtain ⟨k, _, hc⟩ := List.mem_filterMap.mp h
  obtain ⟨hfk, hrefs, hw⟩ := coalesce_some_key (fun o ho => keyGroup_key ho) hc
  rw [hfk]
  exact ⟨hrefs, hw⟩

/-- Members of the store arise from keys of the observation list. -/
theorem store_mem_key {obs : List MappedObs} {f : NormalizedFact}
    (h : f ∈ buildFactStore obs) : ∃ o ∈ obs, obsKey o = factKey f := by
  have hf : factKey f ∈ (buildFactStore obs).map factKey := List.mem_map_of_mem _ h
  rw [buildFactStore_keys] at hf
  have h1 := List.mem_dedup.mp ((List.mem_insertionSort keyLE).mp hf)
  obtain ⟨o, ho, he⟩ := List.mem_map.mp h1
  exact ⟨o, ho, he⟩

/-- Facts of the same key in one store are the same fact. -/
theorem store_unique {obs : List MappedObs} {f1 f2 : NormalizedFact}
    (h1 : f1 ∈ buildFactStore obs) (h2 : f2 ∈ buildFactStore obs)
    (hk : factKey f1 = factKey f2) : f1 = f2 :=
  List.inj_on_of_nodup_map (store_keys_nodup obs) h1 h2 hk

/-- What a successful store lookup guarantees. -/
theorem lookupFact_some {store : List NormalizedFact} {k p : String}
    {sc : EntityScope} {f : NormalizedFact}
    (h : lookupFact store k p sc = some f) :
    f ∈ store ∧ f.canonical_key = k ∧ f.period_end = p ∧ f.entity_scope = sc := by
  have hm := List.mem_of_find?_eq_some h
  have hp := List.find?_some h
  rw [decide_eq_true_eq] at hp
  exact ⟨hm, hp.1, hp.2.1, hp.2.2⟩

/-- A missing required input makes input resolution fail. -/
theorem resolveInputs_none {store : List NormalizedFact} {p : String}
    {sc : EntityScope} : ∀ {ks : List String},
    (∃ k ∈ ks, lookupFact store k p sc = none) →
    resolveInputs store p sc ks = none := by
  intro ks
  induction ks with
  | nil => rintro ⟨k, hk, _⟩; cases hk
  | cons k t ih =>
    rintro ⟨x, hx, hnone⟩
    rcases List.mem_cons.mp hx with h1 | h1
    · subst h1
      rw [resolveInputs, hnone]
    · rw [resolveInputs]
      cases hl : lookupFact store k p sc with
      | none => rfl
      | some f => rw [ih ⟨x, h1, hnone⟩]

/-- Every resolved trace input comes from a successful store lookup of its
own canonical key at the evaluation period. -/
theorem resolveInputs_some {store : List NormalizedFact} {p : String}
    {sc : EntityScope} : ∀ {ks : List String} {ins : List TraceInput},
    resolveInputs store p sc ks = some ins →
    ∀ inp ∈ ins, ∃ f, lookupFact store inp.canonical_key p sc = some f ∧
      inp.period_end = p ∧ inp.value = f.value_base := by
  intro ks
  induction ks with
  | nil =>
    intro ins h inp hinp
    rw [resolveInputs] at h
    injection h with h
    subst h
    cases hinp
  | cons k t ih =>
    intro ins h inp hinp
    rw [resolveInputs] at h
    cases hl : lookupFact store k p sc with
    | none => rw [hl] at h; cases h
    | some f =>
      rw [hl] at h
      cases hr : resolveInputs store p sc t with
      | none => rw [hr] at h; cases h
      | some rest =>
        rw [hr] at h
        injection h with h
        subst h
        rcases List.mem_cons.mp hinp with h1 | h1
        · subst h1
          exact ⟨f, hl, rfl, rfl⟩
        · exact ih hr inp h1

/-- A successful evaluation records exactly the resolved inputs in its
calc_trace. -/
theorem evaluate_some {fs : FormulaSpec} {store : List NormalizedFact}
    {p : String} {sc : EntityScope} {mf : MetricFact}
    (h : evaluate fs store p sc = some mf) :
    resolveInputs store p sc fs.inputs = some mf.calc_trace.inputs := by
  unfold evaluate at h
  cases hr : resolveInputs store p sc fs.inputs with
  | none => rw [hr] at h; cases h
  | some ins =>
    rw [hr] at h
    simp only [] at h
    cases hc : fs.compute (ins.map TraceInput.value) with
    | none =>
      simp only [hc] at h
      cases h
    | some v =>
      simp only [hc] at h
      injection h with h
      rw [← h]

/-- A trace input with no matching fact makes trace resolution fail. -/
theorem resolveTrace_error {facts : List NormalizedFact} :
    ∀ {ins : List TraceInput},
    (∃ i ∈ ins, facts.find?
      (fun f => decide (f.canonical_key = i.canonical_key ∧ f.period_end = i.period_end)) = none) →
    ∃ e, resolveTrace facts ins = .error e := by
  intro ins
  induction ins with
  | nil => rintro ⟨i, hi, _⟩; cases hi
  | cons i t ih =>
    rintro ⟨x, hx, hnone⟩
    rcases List.mem_cons.mp hx with h1 | h1
    · subst h1
      refine ⟨.missingFact x.canonical_key x.period_end, ?_⟩
      rw [resolveTrace, hnone]
    · rw [resolveTrace]
      cases hf : facts.find?
          (fun f => decide (f.canonical_key = i.canonical_key ∧ f.period_end = i.period_end)) with
      | none => exact ⟨.missingFact i.canonical_key i.period_end, rfl⟩
      | some f =>
        obtain ⟨e, he⟩ := ih ⟨x, h1, hnone⟩
        exact ⟨e, by rw [he]⟩

/-- One citation failing to resolve makes the whole assembly fail. -/
theorem assemble_error_mem {metrics : List MetricFact}
    {facts : List NormalizedFact} :
    ∀ {citations : List Citation} {c : Citation}, c ∈ citations →
    (∃ e0, resolveCitation metrics facts c = .error e0) →
    ∃ e, assemble citations metrics facts = .error e := by
  intro citations
  induction citations with
  | nil => intro c hc; cases hc
  | cons c0 t ih =>
    intro c hc he
    rcases List.mem_cons.mp hc with h1 | h1
    · subst h1
      obtain ⟨e0, he0⟩ := he
      exact ⟨e0, by rw [assemble, he0]⟩
    · rw [assemble]
      cases hr : resolveCitation metrics facts c0 with
      | error e0 => exact ⟨e0, rfl⟩
      | ok entry =>
        obtain ⟨e, hrest⟩ := ih h1 he
        exact ⟨e, by rw [hrest]⟩

/-! ## Claim theorems -/

/-- C1: for every fixed input (raw observations, rule table, formula
library, rating configuration and qualitative inputs), two runs of the full
evaluation pipeline produce identical NormalizedFact, MetricFact and
RatingResult sets, including the order of every output list.  The pipeline
is a pure function of these inputs: no step consults wall-clock time,
randomness or unordered iteration. -/
theorem claim_c1_determinism (tbl : RuleTable) (formulas : List FormulaSpec)
    (cfg : RatingConfig) (qual : List (String × ℚ)) (obs : List RawObservation)
    (out1 out2 : PipelineOutput)
    (h1 : out1 = runPipeline tbl formulas cfg qual obs)
    (h2 : out2 = runPipeline tbl formulas cfg qual obs) :
    out1.facts = out2.facts ∧ out1.metrics = out2.metrics ∧
      out1.rating = out2.rating := by
  subst h1
  subst h2
  exact ⟨rfl, rfl, rfl⟩

/-- Witness for C1 at a concrete run. -/
theorem claim_c1_witness :
    (runPipeline demoTable [demoNetDebt, demoInvFormula] demoRating [] demoRaw).facts =
      (runPipeline demoTable [demoNetDebt, demoInvFormula] demoRating [] demoRaw).facts ∧
    (runPipeline demoTable [demoNetDebt, demoInvFormula] demoRating [] demoRaw).metrics =
      (runPipeline demoTable [demoNetDebt, demoInvFormula] demoRating [] demoRaw).metrics ∧
    (runPipeline demoTable [demoNetDebt, demoInvFormula] demoRating [] demoRaw).rating =
      (runPipeline demoTable [demoNetDebt, demoInvFormula] demoRating [] demoRaw).rating :=
  claim_c1_determinism demoTable [demoNetDebt, demoInvFormula] demoRating [] demoRaw
    _ _ rfl rfl

/-- C2: for every rule table and raw label, map_raw_label returns (it is a
total function, so it never raises) a result whose mapping_method is one of
RULE, REGEX, UNMAPPED, whose mapping_confidence is exactly 0.95 for RULE,
exactly 0.85 for REGEX, and exactly 0 with no canonical_key for UNMAPPED. -/
theorem claim_c2_mapping_totality (tbl : RuleTable) (label : String) :
    ((map_raw_label tbl label).mapping_method = .RULE ∨
      (map_raw_label tbl label).mapping_method = .REGEX ∨
      (map_raw_label tbl label).mapping_method = .UNMAPPED) ∧
    ((map_raw_label tbl label).mapping_method = .RULE →
      (map_raw_label tbl label).mapping_confidence = 0.95) ∧
    ((map_raw_label tbl label).mapping_method = .REGEX →
      (map_raw_label tbl label).mapping_confidence = 0.85) ∧
    ((map_raw_label tbl label).mapping_method = .UNMAPPED →
      (map_raw_label tbl label).mapping_confidence = 0 ∧
        (map_raw_label tbl label).canonical_key = none) := by
  rcases map_raw_label_cases tbl label with ⟨r, _, he⟩ | ⟨r, _, _, he⟩ | ⟨_, _, he⟩ <;>
    rw [he]
  · refine ⟨Or.inl rfl, fun _ => ruleConfidence_eq, fun h => ?_, fun h => ?_⟩ <;> cases h
  · refine ⟨Or.inr (Or.inl rfl), fun h => ?_, fun _ => regexConfidence_eq, fun h => ?_⟩ <;>
      cases h
  · refine ⟨Or.inr (Or.inr rfl), fun h => ?_, fun h => ?_, fun _ => ⟨rfl, rfl⟩⟩ <;> cases h

/-- Witness for C2: a RULE match on the concrete table carries confidence
exactly 0.95. -/
theorem claim_c2_witness :
    (map_raw_label demoTable "Trade Receivables ").mapping_confidence = 0.95 :=
  (claim_c2_mapping_totality demoTable "Trade Receivables ").2.1 (by decide)

/-- C3: the mapping engine resolves a raw label in two ordered passes.
Pass A compares the normalized label against the ordered exact rules and
the first match wins with method RULE; only if no exact rule matches does
Pass B evaluate the ordered pattern rules, where the first match wins with
method REGEX.  Mapping depends only on the case/whitespace-normalized
label, so two labels differing only in case or surrounding whitespace
resolve via the same exact rule to the same canonical key. -/
theorem claim_c3_two_pass (tbl : RuleTable) (label : String) :
    (∀ pre r post, tbl.exact_rules = pre ++ r :: post →
      (∀ x ∈ pre, matchesExact x label = false) → matchesExact r label = true →
      map_raw_label tbl label = ⟨some r.key, .RULE, 0.95⟩) ∧
    ((∀ x ∈ tbl.exact_rules, matchesExact x label = false) →
      ∀ pre r post, tbl.pattern_rules = pre ++ r :: post →
      (∀ x ∈ pre, matchesPattern x label = false) → matchesPattern r label = true →
      map_raw_label tbl label = ⟨some r.key, .REGEX, 0.85⟩) ∧
    (∀ label2, normalize_label label = normalize_label label2 →
      map_raw_label tbl label = map_raw_label tbl label2) := by
  refine ⟨?_, ?_, ?_⟩
  · intro pre r post he hpre hr
    unfold map_raw_label
    rw [he, find?_first _ pre r post hpre hr]
    simp only [ruleConfidence_eq]
  · intro hall pre r post he hpre hr
    unfold map_raw_label
    rw [find?_none _ _ (fun x hx => hall x hx), he, find?_first _ pre r post hpre hr]
    simp only [regexConfidence_eq]
  · intro label2 hnorm
    unfold map_raw_label
    rw [find?_congr (fun r => matchesExact r label) (fun r => matchesExact r label2) _
        (fun r => matchesExact_congr r hnorm),
      find?_congr (fun r => matchesPattern r label) (fun r => matchesPattern r label2) _
        (fun r => matchesPattern_congr r hnorm)]

/-- Witness for C3: the label with different case and a trailing space is
resolved by the first exact rule of the concrete table. -/
theorem claim_c3_witness :
    map_raw_label demoTable "Trade Receivables " =
      ⟨some "trade_receivables", .RULE, 0.95⟩ :=
  (claim_c3_two_pass demoTable "Trade Receivables ").1 []
    ⟨"Trade receivables", "trade_receivables"⟩ [⟨"Inventories", "inventory"⟩]
    rfl (by simp) (by decide)

/-- C4: for every non-empty group of mapped observations sharing one
(canonical_key, period_end, entity_scope), coalesce picks the winner by a
total deterministic order (highest mapping_confidence, ties by smallest
source_sheet then smallest line_no) and the winner value becomes the fact
value_base. -/
theorem claim_c4_coalesce_winner (obs : List MappedObs) (k : FactKey)
    (hne : obs ≠ []) (hkey : ∀ o ∈ obs, obsKey o = k) :
    (∀ a b : MappedObs, specPrefers a b ∨ specPrefers b a) ∧
    ∃ fact w, coalesce obs = some fact ∧ w ∈ obs ∧ fact.value_base = w.value ∧
      ∀ o ∈ obs, specPrefers w o := by
  constructor
  · intro a b
    rcases obsLE_total a b with h | h
    · exact Or.inl (obsLE_iff_specPrefers.mp h)
    · exact Or.inr (obsLE_iff_specPrefers.mp h)
  · obtain ⟨f, w, hc, hw, _, _, _, hv, hmin, _⟩ := coalesce_spec obs hne
    exact ⟨f, w, hc, hw, hv, fun o ho => obsLE_iff_specPrefers.mp (hmin o ho)⟩

/-- Witness for C4: the two inventory observations of Scenario 3. -/
theorem claim_c4_witness :
    (∀ a b : MappedObs, specPrefers a b ∨ specPrefers b a) ∧
    ∃ fact w, coalesce [obsInvB, obsInvA] = some fact ∧ w ∈ [obsInvB, obsInvA] ∧
      fact.value_base = w.value ∧ ∀ o ∈ [obsInvB, obsInvA], specPrefers w o :=
  claim_c4_coalesce_winner [obsInvB, obsInvA] ⟨"inventory", "2025-06-30", .GROUP⟩
    (by decide) (by decide)

/-- C5: the fact store holds at most one fact per (canonical_key,
period_end, entity_scope); every fact retains exactly one source_ref per
contributing observation (none dropped, none silently overwritten); and
every source_ref shares the fact entity scope, so GROUP and COMPANY
observations are never merged into one fact. -/
theorem claim_c5_store_invariants (obs : List MappedObs) :
    ((buildFactStore obs).map factKey).Nodup ∧
    (∀ f ∈ buildFactStore obs,
      f.source_refs.length = (keyGroup obs (factKey f)).length) ∧
    (∀ f ∈ buildFactStore obs, ∀ r ∈ f.source_refs,
      r.entity_scope = f.entity_scope) := by
  refine ⟨store_keys_nodup obs, ?_, ?_⟩
  · intro f hf
    rw [(store_entry hf).1, List.length_map]
  · intro f hf r hr
    rw [(store_entry hf).1] at hr
    obtain ⟨o, ho, he⟩ := List.mem_map.mp hr
    have hk : obsKey o = factKey f := keyGroup_key ho
    have hscope : o.entity_scope = f.entity_scope := congrArg FactKey.entity_scope hk
    rw [← he]
    exact hscope

/-- Witness for C5: the cash fact of the concrete store keeps exactly the
one contributing observation. -/
theorem claim_c5_witness :
    demoCashFact.source_refs.length =
      (keyGroup demoMapped (factKey demoCashFact)).length :=
  (claim_c5_store_invariants demoMapped).2.1 demoCashFact (by decide)

/-- C6: if any required input of a formula is absent from the fact store
for a period, the metric engine emits no MetricFact for that (formula,
period): the metric is Skipped, not zero.  evaluate is a total function
(no exception escapes), and a compute that signals undefined arithmetic
(such as a zero denominator) likewise yields no persisted MetricFact, so
no stored value is ever an Infinity or NaN (values are exact rationals). -/
theorem claim_c6_metric_skip (fs : FormulaSpec) (store : List NormalizedFact)
    (p : String) (sc : EntityScope) :
    ((∃ k ∈ fs.inputs, lookupFact store k p sc = none) →
      evaluate fs store p sc = none) ∧
    (∀ ins, resolveInputs store p sc fs.inputs = some ins →
      fs.compute (ins.map TraceInput.value) = none →
      evaluate fs store p sc = none) := by
  constructor
  · intro h
    unfold evaluate
    rw [resolveInputs_none h]
  · intro ins h1 h2
    unfold evaluate
    rw [h1]
    simp only [h2]

/-- Witness for C6, Scenario 4: with ebitda absent from the concrete store,
the net-debt-to-ebitda formula yields no metric fact. -/
theorem claim_c6_witness :
    evaluate demoNetDebt demoStore "2025-06-30" EntityScope.GROUP = none :=
  (claim_c6_metric_skip demoNetDebt demoStore "2025-06-30" .GROUP).1
    ⟨"ebitda", by decide, by decide⟩

/-- C7: every input listed in the calc_trace of a metric fact computed over
a coalesced store resolves to exactly one NormalizedFact of the store, and
that fact stored value_base equals the value recorded in the trace. -/
theorem claim_c7_round_trip (obs : List MappedObs) (fs : FormulaSpec)
    (p : String) (sc : EntityScope) (mf : MetricFact)
    (h : evaluate fs (buildFactStore obs) p sc = some mf) :
    ∀ inp ∈ mf.calc_trace.inputs,
      ∃! fact, fact ∈ buildFactStore obs ∧
        fact.canonical_key = inp.canonical_key ∧
        fact.period_end = inp.period_end ∧ fact.entity_scope = sc ∧
        fact.value_base = inp.value := by
  intro inp hinp
  have hres := evaluate_some h
  obtain ⟨f, hl, hpe, hv⟩ := resolveInputs_some hres inp hinp
  obtain ⟨hmem, hck, hp2, hsc⟩ := lookupFact_some hl
  refine ⟨f, ⟨hmem, hck, hp2.trans hpe.symm, hsc, hv.symm⟩, ?_⟩
  rintro f2 ⟨hmem2, hck2, hpe2, hsc2, _⟩
  apply store_unique hmem2 hmem
  show FactKey.mk f2.canonical_key f2.period_end f2.entity_scope =
    FactKey.mk f.canonical_key f.period_end f.entity_scope
  rw [hck2, hck, hpe2, hp2.trans hpe.symm, hsc2, hsc]

/-- Witness for C7: the inventory input of the concrete metric fact
resolves to exactly one fact of the concrete store, at value 120. -/
theorem claim_c7_witness :
    ∃! fact, fact ∈ buildFactStore demoMapped ∧
      fact.canonical_key = "inventory" ∧ fact.period_end = "2025-06-30" ∧
      fact.entity_scope = EntityScope.GROUP ∧ fact.value_base = qint 120 :=
  claim_c7_round_trip demoMapped demoInvFormula "2025-06-30" .GROUP demoInvMetric
    (by decide) ⟨"inventory", "2025-06-30", qint 120⟩ (by decide)

/-- C8: assemble reports a missing-link error (never a silent empty list)
whenever a citation references a metric_key/period_end with no metric fact,
or a resolved citation has a calc_trace input with no corresponding
normalized fact.  assemble only reads its inputs, so the already-computed
facts and metrics are left unchanged. -/
theorem claim_c8_assemble_fail_loudly (citations : List Citation)
    (metrics : List MetricFact) (facts : List NormalizedFact) :
    ((∃ c ∈ citations, ∀ m ∈ metrics,
        ¬(m.metric_key = c.metric_key ∧ m.period_end = c.period_end)) →
      ∃ e, assemble citations metrics facts = .error e) ∧
    ((∃ c ∈ citations, ∃ m,
        metrics.find? (fun m => decide (m.metric_key = c.metric_key ∧
          m.period_end = c.period_end)) = some m ∧
        ∃ i ∈ m.calc_trace.inputs, ∀ f ∈ facts,
          ¬(f.canonical_key = i.canonical_key ∧ f.period_end = i.period_end)) →
      ∃ e, assemble citations metrics facts = .error e) := by
  constructor
  · rintro ⟨c, hc, hno⟩
    apply assemble_error_mem hc
    have hfind : metrics.find? (fun m => decide (m.metric_key = c.metric_key ∧
        m.period_end = c.period_end)) = none :=
      find?_none _ _ (fun m hm => decide_eq_false (hno m hm))
    refine ⟨.missingMetric c.metric_key c.period_end, ?_⟩
    unfold resolveCitation
    rw [hfind]
  · rintro ⟨c, hc, m, hfind, i, himem, hno⟩
    apply assemble_error_mem hc
    have hfnone : facts.find? (fun f => decide (f.canonical_key = i.canonical_key ∧
        f.period_end = i.period_end)) = none :=
      find?_none _ _ (fun f hf => decide_eq_false (hno f hf))
    obtain ⟨e, he⟩ := resolveTrace_error ⟨i, himem, hfnone⟩
    refine ⟨e, ?_⟩
    unfold resolveCitation
    rw [hfind]
    simp only [he]

/-- Witness for C8: a citation of a metric that was never computed makes
assembly of the concrete bundle fail with an error. -/
theorem claim_c8_witness :
    ∃ e, assemble [demoBrokenCitation] [] demoStore = .error e :=
  (claim_c8_assemble_fail_loudly [demoBrokenCitation] [] demoStore).1
    ⟨demoBrokenCitation, by decide, by decide⟩

/-- C9: for every observation list, in any order, the coalesced facts are
emitted in sorted (canonical_key, period_end) order. -/
theorem claim_c9_sorted_emission (obs : List MappedObs) :
    List.Pairwise (fun f g : NormalizedFact =>
      f.canonical_key < g.canonical_key ∨
        (f.canonical_key = g.canonical_key ∧ f.period_end ≤ g.period_end))
      (buildFactStore obs) := by
  have h := store_keys_sorted obs
  have h2 : List.Pairwise (fun a b => keyLE (factKey a) (factKey b))
      (buildFactStore obs) := (List.pairwise_map).mp h
  refine h2.imp ?_
  intro a b hab
  unfold keyLE triLex at hab
  rcases hab with h1 | ⟨h1, h2 | ⟨h2, _⟩⟩
  · exact Or.inl h1
  · exact Or.inr ⟨h1, le_of_lt h2⟩
  · exact Or.inr ⟨h1, le_of_eq h2⟩

/-- C10: in the mapped-line-items table, a row with a missing or empty
canonical_key renders the literal UNMAPPED in the canonical-key column,
and the confidence column renders the confidence times 100 rounded to a
whole percent exactly when the confidence is a number, and a dash
otherwise. -/
theorem claim_c10_row_rendering (m : MappingRow) :
    ((m.canonical_key = none ∨ m.canonical_key = some "") →
      renderCanonicalKey m = "UNMAPPED") ∧
    (∀ q, m.confidence = some q →
      renderConfidence m = toString (round (q * 100)) ++ "%") ∧
    (m.confidence = none → renderConfidence m = "-") := by
  refine ⟨?_, ?_, ?_⟩
  · intro h
    unfold renderCanonicalKey
    rcases h with h | h <;> rw [h] <;> rfl
  · intro q hq
    unfold renderConfidence
    rw [hq, round_eq]
    rfl
  · intro h
    unfold renderConfidence
    rw [h]

/-- Witness for C10: a rendered row with an empty canonical key displays
UNMAPPED. -/
theorem claim_c10_witness : renderCanonicalKey demoRowEmpty = "UNMAPPED" :=
  (claim_c10_row_rendering demoRowEmpty).1 (Or.inr rfl)

end CreditCore
